import Mathlib

/-!
Verification of the SignalFx event → pdata log-record converter
(`internal/receiver/smartagentreceiver/converter/event.go`,
function `sfxEventToPDataLogs`).

The Go code is shallowly embedded below.  Dynamically-typed Go values
stored in `event.Properties` become the inductive `GoValue`; the pdata
attribute values become `AttrValue`; `pcommon.Map` becomes an
association list together with `mapInsert`, which models the pdata
`Insert*` family: the pdata documentation for the API version in use
states that `Insert` "adds the Value to the map when the key does not
exist" and applies "no action to the map where the key already exists",
so `mapInsert` appends only when the key is absent.
Go `time.Time` becomes `GoTime` (the `IsZero` flag plus the `UnixNano`
reading; the converter never reads `UnixNano` of a zero time).
Floating-point values are modelled by their exact rational value: the
only operation the converter performs on them is the exact widening
`float64(v)` of a `float32`, which preserves the numeric value.
The `zap.Logger` side channel becomes an explicit list of emitted
`LogMsg` values returned next to the log record.
-/

namespace SfxEvent

/-- Attribute key for the splunk event category
(Go constant `SFxEventCategoryKey`). -/
def SFxEventCategoryKey : String := "com.splunk.signalfx.event_category"

/-- Attribute key for the splunk event properties
(Go constant `SFxEventPropertiesKey`). -/
def SFxEventPropertiesKey : String := "com.splunk.signalfx.event_properties"

/-- Attribute key for the splunk event type (Go constant `SFxEventType`). -/
def SFxEventType : String := "com.splunk.signalfx.event_type"

/-- A dynamically-typed Go value held in `event.Properties`
(`map[string]interface{}`).  Each constructor is one of the concrete Go
types the converter's type switch can observe.  Unsigned integers carry
a `Nat`; signed integers carry an `Int`; floats carry their exact
numeric value as a rational; `vOther` stands for any value of a type
outside the listed ones and carries the string `fmt.Sprintf("%v", ·)`
would render for it. -/
inductive GoValue where
  | vString (s : String)
  | vBool (b : Bool)
  | vInt (i : Int)
  | vInt8 (i : Int)
  | vInt16 (i : Int)
  | vInt32 (i : Int)
  | vInt64 (i : Int)
  | vFloat32 (q : ℚ)
  | vFloat64 (q : ℚ)
  | vUInt (n : Nat)
  | vUInt8 (n : Nat)
  | vUInt16 (n : Nat)
  | vUInt32 (n : Nat)
  | vUInt64 (n : Nat)
  | vUIntPtr (n : Nat)
  | vOther (rendered : String)
  deriving DecidableEq, Repr

/-- `fmt.Sprintf("%v", value)`: the default human-readable rendering of
a Go value.  Unsigned integers render in decimal; for `vOther` the
rendering is the string the constructor carries.  (The remaining
constructors never reach the `default` branch of the converter's type
switch, but `%v` is total, so the model is too: strings render as
themselves, booleans as `true`/`false`, signed integers in decimal;
for floats we use the rational's rendering as a stand-in.) -/
def goRender : GoValue → String
  | .vString s => s
  | .vBool b => if b then "true" else "false"
  | .vInt i => toString i
  | .vInt8 i => toString i
  | .vInt16 i => toString i
  | .vInt32 i => toString i
  | .vInt64 i => toString i
  | .vFloat32 q => toString q
  | .vFloat64 q => toString q
  | .vUInt n => toString n
  | .vUInt8 n => toString n
  | .vUInt16 n => toString n
  | .vUInt32 n => toString n
  | .vUInt64 n => toString n
  | .vUIntPtr n => toString n
  | .vOther r => r

/-- A pdata attribute value (`pcommon.Value`).  `intVal` is the 64-bit
integer kind, `doubleVal` the float64 kind (modelled exactly, see the
header comment), `mapVal` the nested-map kind. -/
inductive AttrValue where
  | nullVal
  | strVal (s : String)
  | boolVal (b : Bool)
  | intVal (i : Int)
  | doubleVal (q : ℚ)
  | mapVal (m : List (String × AttrValue))
  deriving Repr

/-- A `pcommon.Map`: an association list of key/attribute pairs. -/
abbrev AttrMap := List (String × AttrValue)

/-- Whether `m` already has an entry with key `k`. -/
def hasKey (m : AttrMap) (k : String) : Bool :=
  m.any (fun p => p.1 == k)

/-- The pdata `Insert` / `InsertString` / `InsertInt` / `InsertNull` /
`InsertBool` / `InsertDouble` operation: append the pair only when the
key is not already present; otherwise leave the map unchanged. -/
def mapInsert (m : AttrMap) (k : String) (v : AttrValue) : AttrMap :=
  if hasKey m k then m else m ++ [(k, v)]

/-- Look up the attribute stored under `k`, if any. -/
def mapLookup (m : AttrMap) (k : String) : Option AttrValue :=
  (m.find? (fun p => p.1 == k)).map Prod.snd

/-- Number of entries of `m` whose key is `k`. -/
def keyCount (m : AttrMap) (k : String) : Nat :=
  (m.filter (fun p => p.1 == k)).length

/-- Go `time.Time` as the converter observes it: the result of
`IsZero()` and the result of `UnixNano()`.  Go's zero `time.Time` is
not the Unix epoch, so `isZero = true` does not constrain `unixNano`;
the converter never reads `unixNano` when `isZero` holds. -/
structure GoTime where
  isZero : Bool
  unixNano : Int
  deriving DecidableEq, Repr

/-- The source event (`github.com/signalfx/golib/v3/event.Event` as
read by the converter).  `properties` maps keys to `Option GoValue`;
`none` is a stored Go `nil`.  Go maps are unordered with unique keys;
the association lists fix one iteration order, and key uniqueness is a
hypothesis (`List.Nodup` on the keys) where a claim needs it. -/
structure Event where
  eventType : String
  category : Int
  dimensions : List (String × String)
  properties : List (String × Option GoValue)
  timestamp : GoTime
  deriving DecidableEq, Repr

/-- One message emitted on the `zap.Logger`. -/
structure LogMsg where
  level : String
  message : String
  fields : List (String × String)
  deriving DecidableEq, Repr

/-- The message `logger.Debug("property with nil value will not be
reported", zap.String("property", property))` emits. -/
def nilPropertyMsg (property : String) : LogMsg :=
  { level := "debug"
    message := "property with nil value will not be reported"
    fields := [("property", property)] }

/-- The produced `plog.LogRecord`: its timestamp (nanoseconds) and its
attribute map.  (`newLogs` wraps exactly one such record in
`ResourceLogs / ScopeLogs / LogRecords`; the wrapping carries no data.) -/
structure LogRecord where
  timestamp : Int
  attributes : AttrMap
  deriving Repr

/-- Result of a conversion: the single log record plus the diagnostic
messages emitted while converting. -/
structure ConvertResult where
  record : LogRecord
  logMessages : List LogMsg
  deriving Repr

/-- The body of the `switch v := value.(type)` statement for a non-nil
property value: string, bool, the signed integer widths (each widened
by `int64(v)`), the float widths (each widened by `float64(v)`), and
the `default` branch rendering via `fmt.Sprintf("%v", value)`. -/
def convertPropertyValue : GoValue → AttrValue
  | .vString s => .strVal s
  | .vBool b => .boolVal b
  | .vInt i => .intVal i
  | .vInt8 i => .intVal i
  | .vInt16 i => .intVal i
  | .vInt32 i => .intVal i
  | .vInt64 i => .intVal i
  | .vFloat32 q => .doubleVal q
  | .vFloat64 q => .doubleVal q
  | v => .strVal (goRender v)

/-- One iteration of the `for property, value := range event.Properties`
loop, acting on the map-under-construction and the messages emitted so
far: a nil value is skipped with a debug message, any other value is
inserted after the type switch. -/
def propLoopStep (acc : AttrMap × List LogMsg) (p : String × Option GoValue) :
    AttrMap × List LogMsg :=
  match p.2 with
  | none => (acc.1, acc.2 ++ [nilPropertyMsg p.1])
  | some v => (mapInsert acc.1 p.1 (convertPropertyValue v), acc.2)

/-- The `for property, value := range event.Properties` loop: builds
the nested property map and collects the debug messages for skipped
nil-valued properties. -/
def convertProperties (props : List (String × Option GoValue)) :
    AttrMap × List LogMsg :=
  props.foldl propLoopStep ([], [])

/-- One iteration of the `for k, v := range event.Dimensions` loop:
`attrs.InsertString(k, v)`. -/
def dimStep (m : AttrMap) (kv : String × String) : AttrMap :=
  mapInsert m kv.1 (.strVal kv.2)

/-- The `var unixNano int64; if !event.Timestamp.IsZero() { unixNano =
event.Timestamp.UnixNano() }` prologue. -/
def eventUnixNano (e : Event) : Int :=
  if e.timestamp.isZero then 0 else e.timestamp.unixNano

/-- The attribute map right after the `if event.Category == 0` statement:
`InsertNull(SFxEventCategoryKey)` when the category is zero, else
`InsertInt(SFxEventCategoryKey, int64(event.Category))`, starting from
the cleared map.  (`attrs.Clear()` / `EnsureCapacity` only pre-size the
container and carry no semantic content.) -/
def eventAttrs1 (e : Event) : AttrMap :=
  if e.category = 0 then
    mapInsert [] SFxEventCategoryKey .nullVal
  else
    mapInsert [] SFxEventCategoryKey (.intVal e.category)

/-- The attribute map right after `if event.EventType != "" {
attrs.InsertString(SFxEventType, event.EventType) }`. -/
def eventAttrs2 (e : Event) : AttrMap :=
  if e.eventType ≠ "" then
    mapInsert (eventAttrs1 e) SFxEventType (.strVal e.eventType)
  else eventAttrs1 e

/-- The attribute map right after the `for k, v := range
event.Dimensions` loop. -/
def eventAttrs3 (e : Event) : AttrMap :=
  e.dimensions.foldl dimStep (eventAttrs2 e)

/-- The attribute map right after the `if len(event.Properties) > 0`
block: when there are properties, the nested map built by the property
loop is inserted under the properties marker key. -/
def eventAttrs4 (e : Event) : AttrMap :=
  if e.properties.length > 0 then
    mapInsert (eventAttrs3 e) SFxEventPropertiesKey
      (.mapVal (convertProperties e.properties).1)
  else eventAttrs3 e

/-- The full conversion `sfxEventToPDataLogs`.  The record's timestamp
is `eventUnixNano`; its attributes are built by the statement sequence
`eventAttrs1` → `eventAttrs2` → `eventAttrs3` → `eventAttrs4`; the
debug messages are the ones the property loop emitted. -/
def sfxEventToPDataLogs (e : Event) : ConvertResult :=
  { record := { timestamp := eventUnixNano e, attributes := eventAttrs4 e }
    logMessages := (convertProperties e.properties).2 }

/-! ### Helper definitions used to state and prove properties -/

/-- The effect of one property-loop iteration on the map alone. -/
def propMapStep (m : AttrMap) (p : String × Option GoValue) : AttrMap :=
  match p.2 with
  | none => m
  | some v => mapInsert m p.1 (convertPropertyValue v)

/-- The nested property map the loop builds. -/
def propMapOf (props : List (String × Option GoValue)) : AttrMap :=
  props.foldl propMapStep []

/-- The debug messages the loop emits: one per nil-valued property, in
iteration order. -/
def nilMsgsOf (props : List (String × Option GoValue)) : List LogMsg :=
  (props.filter (fun p => p.2.isNone)).map (fun p => nilPropertyMsg p.1)

/-- The category marker's value: null for category 0, else the integer. -/
def categoryAttr (e : Event) : AttrValue :=
  if e.category = 0 then .nullVal else .intVal e.category

/-- An event whose single dimension collides with the type marker key
while `EventType` is empty. -/
def typeCollisionEvent : Event :=
  { eventType := "", category := 0
    dimensions := [(SFxEventType, "foo")]
    properties := []
    timestamp := ⟨true, 0⟩ }

/-- An event whose single dimension collides with the properties marker
key while `Properties` is non-empty. -/
def propsCollisionEvent : Event :=
  { eventType := "", category := 0
    dimensions := [(SFxEventPropertiesKey, "x")]
    properties := [("a", some (.vString "b"))]
    timestamp := ⟨true, 0⟩ }

/-- An event whose single dimension collides with the category marker
key. -/
def catCollisionEvent : Event :=
  { eventType := "", category := 0
    dimensions := [(SFxEventCategoryKey, "collide")]
    properties := []
    timestamp := ⟨true, 0⟩ }

/-- Another event whose single dimension collides with the category
marker key: the dimension is written later in the population sequence
than the marker. -/
def lastWriteEvent : Event :=
  { eventType := "", category := 0
    dimensions := [(SFxEventCategoryKey, "late")]
    properties := []
    timestamp := ⟨true, 0⟩ }

/-- A collision-free event exercising a nil property, a non-nil
property, one dimension, a type and a non-zero category. -/
def plainEvent : Event :=
  { eventType := "alert", category := 5
    dimensions := [("host", "a")]
    properties := [("p1", some (.vString "x")), ("p2", none)]
    timestamp := ⟨true, 0⟩ }

/-! ### Basic lemmas about the attribute-map model -/

theorem hasKey_append (m₁ m₂ : AttrMap) (k : String) :
    hasKey (m₁ ++ m₂) k = (hasKey m₁ k || hasKey m₂ k) := by
  simp [hasKey]

theorem hasKey_eq_isSome (m : AttrMap) (k : String) :
    hasKey m k = (mapLookup m k).isSome := by
  induction m with
  | nil => rfl
  | cons p rest ih =>
    by_cases h : p.1 = k
    · simp [hasKey, mapLookup, List.find?_cons, h]
    · have hb : (p.1 == k) = false := by simp [h]
      simpa [hasKey, mapLookup, List.find?_cons, hb] using ih

theorem hasKey_false_iff_lookup_none (m : AttrMap) (k : String) :
    hasKey m k = false ↔ mapLookup m k = none := by
  rw [hasKey_eq_isSome]
  cases mapLookup m k <;> simp

theorem mapInsert_of_hasKey (m : AttrMap) (k : String) (v : AttrValue)
    (h : hasKey m k = true) : mapInsert m k v = m := by
  simp [mapInsert, h]

theorem mapInsert_of_not_hasKey (m : AttrMap) (k : String) (v : AttrValue)
    (h : hasKey m k = false) : mapInsert m k v = m ++ [(k, v)] := by
  simp [mapInsert, h]

theorem hasKey_mapInsert (m : AttrMap) (k k' : String) (v : AttrValue) :
    hasKey (mapInsert m k v) k' = (hasKey m k' || k == k') := by
  by_cases h : hasKey m k
  · rw [mapInsert_of_hasKey m k v h]
    by_cases hkk : k = k'
    · subst hkk; simp [h]
    · simp [hkk]
  · rw [mapInsert_of_not_hasKey m k v (by simpa using h), hasKey_append]
    simp [hasKey]

theorem mapLookup_append_left (m₁ m₂ : AttrMap) (k : String) (v : AttrValue)
    (h : mapLookup m₁ k = some v) : mapLookup (m₁ ++ m₂) k = some v := by
  unfold mapLookup at *
  rw [List.find?_append]
  rcases Option.map_eq_some'.1 h with ⟨p, hp, hpv⟩
  rw [hp]
  simpa using hpv

theorem mapLookup_append_right (m₁ m₂ : AttrMap) (k : String)
    (h : mapLookup m₁ k = none) : mapLookup (m₁ ++ m₂) k = mapLookup m₂ k := by
  unfold mapLookup at *
  rw [List.find?_append]
  simp only [Option.map_eq_none'] at h
  rw [h]
  rfl

theorem mapLookup_mapInsert_preserve (m : AttrMap) (k k' : String)
    (v v' : AttrValue) (h : mapLookup m k = some v) :
    mapLookup (mapInsert m k' v') k = some v := by
  by_cases hk : hasKey m k'
  · rw [mapInsert_of_hasKey m k' v' hk]; exact h
  · rw [mapInsert_of_not_hasKey m k' v' (by simpa using hk)]
    exact mapLookup_append_left _ _ _ _ h

theorem mapLookup_mapInsert_self (m : AttrMap) (k : String) (v : AttrValue)
    (h : hasKey m k = false) : mapLookup (mapInsert m k v) k = some v := by
  rw [mapInsert_of_not_hasKey m k v h,
    mapLookup_append_right _ _ _ ((hasKey_false_iff_lookup_none m k).1 h)]
  simp [mapLookup]

theorem mapLookup_mapInsert_ne (m : AttrMap) (k k' : String) (v : AttrValue)
    (h : k ≠ k') : mapLookup (mapInsert m k v) k' = mapLookup m k' := by
  by_cases hk : hasKey m k
  · rw [mapInsert_of_hasKey m k v hk]
  · rw [mapInsert_of_not_hasKey m k v (by simpa using hk)]
    cases hl : mapLookup m k' with
    | some v' => exact mapLookup_append_left _ _ _ _ hl
    | none =>
      rw [mapLookup_append_right _ _ _ hl]
      have hb : (k == k') = false := by simp [h]
      simp [mapLookup, List.find?, hb]

theorem keyCount_append (m₁ m₂ : AttrMap) (k : String) :
    keyCount (m₁ ++ m₂) k = keyCount m₁ k + keyCount m₂ k := by
  simp [keyCount]

theorem keyCount_eq_zero_of_not_hasKey (m : AttrMap) (k : String)
    (h : hasKey m k = false) : keyCount m k = 0 := by
  simp only [hasKey, List.any_eq_false] at h
  simp [keyCount, List.filter_eq_nil_iff.2 h]

theorem keyCount_mapInsert_preserve (m : AttrMap) (k k' : String)
    (v' : AttrValue) (hk : hasKey m k = true) :
    keyCount (mapInsert m k' v') k = keyCount m k := by
  by_cases h : hasKey m k'
  · rw [mapInsert_of_hasKey m k' v' h]
  · rw [mapInsert_of_not_hasKey m k' v' (by simpa using h), keyCount_append]
    have hne : k' ≠ k := fun he => by rw [he] at h; exact absurd hk (by simp [h])
    simp [keyCount, hne]

theorem keyCount_mapInsert_ne (m : AttrMap) (k k' : String) (v' : AttrValue)
    (hne : k' ≠ k) : keyCount (mapInsert m k' v') k = keyCount m k := by
  by_cases h : hasKey m k'
  · rw [mapInsert_of_hasKey m k' v' h]
  · rw [mapInsert_of_not_hasKey m k' v' (by simpa using h), keyCount_append]
    simp [keyCount, hne]

theorem keyCount_mapInsert_self (m : AttrMap) (k : String) (v : AttrValue)
    (h : hasKey m k = false) : keyCount (mapInsert m k v) k = 1 := by
  rw [mapInsert_of_not_hasKey m k v h, keyCount_append,
    keyCount_eq_zero_of_not_hasKey m k h]
  simp [keyCount]

/-! ### Lemmas about the dimension loop -/

theorem dimsFold_preserve (dims : List (String × String)) (m : AttrMap)
    (k : String) (v : AttrValue) (h : mapLookup m k = some v)
    (hc : keyCount m k = 1) :
    mapLookup (dims.foldl dimStep m) k = some v ∧
      keyCount (dims.foldl dimStep m) k = 1 := by
  induction dims generalizing m with
  | nil => exact ⟨h, hc⟩
  | cons d rest ih =>
    simp only [List.foldl_cons]
    apply ih
    · exact mapLookup_mapInsert_preserve _ _ _ _ _ h
    · rw [dimStep, keyCount_mapInsert_preserve]
      · exact hc
      · rw [hasKey_eq_isSome, h]; rfl

theorem dimsFold_hasKey_of_not_mem (dims : List (String × String))
    (m : AttrMap) (k : String) (hk : ∀ d ∈ dims, d.1 ≠ k) :
    hasKey (dims.foldl dimStep m) k = hasKey m k := by
  induction dims generalizing m with
  | nil => rfl
  | cons d rest ih =>
    simp only [List.foldl_cons]
    rw [ih _ (fun d' hd' => hk d' (List.mem_cons_of_mem _ hd'))]
    rw [dimStep, hasKey_mapInsert]
    have : (d.1 == k) = false := by simp [hk d (List.mem_cons_self _ _)]
    simp [this]

theorem dimsFold_insert (dims : List (String × String)) (m : AttrMap)
    (k v : String) (hnd : (dims.map Prod.fst).Nodup) (hmem : (k, v) ∈ dims)
    (h : hasKey m k = false) :
    mapLookup (dims.foldl dimStep m) k = some (.strVal v) ∧
      keyCount (dims.foldl dimStep m) k = 1 := by
  induction dims generalizing m with
  | nil => cases hmem
  | cons d rest ih =>
    simp only [List.foldl_cons]
    simp only [List.map_cons, List.nodup_cons] at hnd
    rcases List.mem_cons.1 hmem with heq | hrest
    · subst heq
      exact dimsFold_preserve rest _ _ _
        (mapLookup_mapInsert_self m k (.strVal v) h)
        (keyCount_mapInsert_self m k (.strVal v) h)
    · have hd1 : d.1 ≠ k := fun he =>
        hnd.1 (he ▸ List.mem_map.2 ⟨(k, v), hrest, rfl⟩)
      refine ih (dimStep m d) hnd.2 hrest ?_
      rw [dimStep, hasKey_mapInsert, h]
      simp [hd1]

/-! ### Lemmas about the property loop -/

theorem propLoop_split (props : List (String × Option GoValue))
    (m : AttrMap) (msgs : List LogMsg) :
    props.foldl propLoopStep (m, msgs) =
      (props.foldl propMapStep m, msgs ++ nilMsgsOf props) := by
  induction props generalizing m msgs with
  | nil => simp [nilMsgsOf]
  | cons p rest ih =>
    cases hp : p.2 with
    | none =>
      simp [List.foldl_cons, propLoopStep, propMapStep, hp, nilMsgsOf,
        List.filter_cons, ih]
    | some v =>
      simp [List.foldl_cons, propLoopStep, propMapStep, hp, nilMsgsOf,
        List.filter_cons, ih]

theorem convertProperties_eq (props : List (String × Option GoValue)) :
    convertProperties props = (propMapOf props, nilMsgsOf props) := by
  unfold convertProperties propMapOf
  simpa using propLoop_split props [] []

theorem propsFold_preserve (props : List (String × Option GoValue))
    (m : AttrMap) (k : String) (v : AttrValue) (h : mapLookup m k = some v)
    (hc : keyCount m k = 1) :
    mapLookup (props.foldl propMapStep m) k = some v ∧
      keyCount (props.foldl propMapStep m) k = 1 := by
  induction props generalizing m with
  | nil => exact ⟨h, hc⟩
  | cons p rest ih =>
    simp only [List.foldl_cons]
    cases hp : p.2 with
    | none =>
      have hstep : propMapStep m p = m := by simp [propMapStep, hp]
      rw [hstep]
      exact ih m h hc
    | some v' =>
      have hstep : propMapStep m p = mapInsert m p.1 (convertPropertyValue v') := by
        simp [propMapStep, hp]
      rw [hstep]
      apply ih
      · exact mapLookup_mapInsert_preserve _ _ _ _ _ h
      · rw [keyCount_mapInsert_preserve]
        · exact hc
        · rw [hasKey_eq_isSome, h]; rfl

theorem propsFold_hasKey_of_not_mem (props : List (String × Option GoValue))
    (m : AttrMap) (k : String) (hk : ∀ p ∈ props, p.1 ≠ k) :
    hasKey (props.foldl propMapStep m) k = hasKey m k := by
  induction props generalizing m with
  | nil => rfl
  | cons p rest ih =>
    simp only [List.foldl_cons]
    rw [ih _ (fun p' hp' => hk p' (List.mem_cons_of_mem _ hp'))]
    cases hp : p.2 with
    | none => simp [propMapStep, hp]
    | some v =>
      simp only [propMapStep, hp]
      rw [hasKey_mapInsert]
      have : (p.1 == k) = false := by simp [hk p (List.mem_cons_self _ _)]
      simp [this]

theorem propsFold_insert (props : List (String × Option GoValue))
    (m : AttrMap) (k : String) (v : GoValue)
    (hnd : (props.map Prod.fst).Nodup) (hmem : (k, some v) ∈ props)
    (h : hasKey m k = false) :
    mapLookup (props.foldl propMapStep m) k =
        some (convertPropertyValue v) ∧
      keyCount (props.foldl propMapStep m) k = 1 := by
  induction props generalizing m with
  | nil => cases hmem
  | cons p rest ih =>
    simp only [List.foldl_cons]
    simp only [List.map_cons, List.nodup_cons] at hnd
    rcases List.mem_cons.1 hmem with heq | hrest
    · subst heq
      exact propsFold_preserve rest _ _ _
        (mapLookup_mapInsert_self m k _ h)
        (keyCount_mapInsert_self m k _ h)
    · have hp1 : p.1 ≠ k := fun he =>
        hnd.1 (he ▸ List.mem_map.2 ⟨(k, some v), hrest, rfl⟩)
      refine ih (propMapStep m p) hnd.2 hrest ?_
      cases hp : p.2 with
      | none => simpa [propMapStep, hp] using h
      | some v' =>
        have hstep : propMapStep m p = mapInsert m p.1 (convertPropertyValue v') := by
          simp [propMapStep, hp]
        rw [hstep, hasKey_mapInsert, h]
        simp [hp1]

theorem propsFold_skip_nil (props : List (String × Option GoValue))
    (k : String) (hnd : (props.map Prod.fst).Nodup)
    (hmem : (k, none) ∈ props) :
    hasKey (propMapOf props) k = false := by
  unfold propMapOf
  generalize hm : ([] : AttrMap) = m
  have h : hasKey m k = false := by rw [← hm]; rfl
  clear hm
  induction props generalizing m with
  | nil => cases hmem
  | cons p rest ih =>
    simp only [List.foldl_cons]
    simp only [List.map_cons, List.nodup_cons] at hnd
    rcases List.mem_cons.1 hmem with heq | hrest
    · subst heq
      have hrk : ∀ p' ∈ rest, p'.1 ≠ k := by
        intro p' hp' he
        exact hnd.1 (he ▸ List.mem_map.2 ⟨p', hp', rfl⟩)
      rw [propsFold_hasKey_of_not_mem rest _ k hrk]
      simpa [propMapStep] using h
    · have hp1 : p.1 ≠ k := fun he =>
        hnd.1 (he ▸ List.mem_map.2 ⟨(k, none), hrest, rfl⟩)
      refine ih hnd.2 hrest (propMapStep m p) ?_
      cases hp : p.2 with
      | none => simpa [propMapStep, hp] using h
      | some v' =>
        have hstep : propMapStep m p = mapInsert m p.1 (convertPropertyValue v') := by
          simp [propMapStep, hp]
        rw [hstep, hasKey_mapInsert, h]
        simp [hp1]

/-! ### The three marker keys are pairwise distinct -/

theorem catKey_beq_typeKey : (SFxEventCategoryKey == SFxEventType) = false := by
  decide

theorem catKey_beq_propKey :
    (SFxEventCategoryKey == SFxEventPropertiesKey) = false := by decide

theorem typeKey_beq_catKey : (SFxEventType == SFxEventCategoryKey) = false := by
  decide

theorem typeKey_beq_propKey :
    (SFxEventType == SFxEventPropertiesKey) = false := by decide

theorem propKey_beq_catKey :
    (SFxEventPropertiesKey == SFxEventCategoryKey) = false := by decide

theorem propKey_beq_typeKey :
    (SFxEventPropertiesKey == SFxEventType) = false := by decide

theorem typeKey_ne_catKey : SFxEventType ≠ SFxEventCategoryKey := by decide

theorem catKey_ne_typeKey : SFxEventCategoryKey ≠ SFxEventType := by decide

theorem propKey_ne_catKey : SFxEventPropertiesKey ≠ SFxEventCategoryKey := by
  decide

theorem propKey_ne_typeKey : SFxEventPropertiesKey ≠ SFxEventType := by decide

/-! ### The attribute pipeline, stage by stage -/

theorem eventAttrs1_eq (e : Event) :
    eventAttrs1 e = [(SFxEventCategoryKey, categoryAttr e)] := by
  unfold eventAttrs1 categoryAttr
  by_cases hc : e.category = 0 <;> simp [hc, mapInsert, hasKey]

theorem eventAttrs2_eq (e : Event) :
    eventAttrs2 e =
      if e.eventType ≠ "" then
        [(SFxEventCategoryKey, categoryAttr e),
          (SFxEventType, .strVal e.eventType)]
      else [(SFxEventCategoryKey, categoryAttr e)] := by
  unfold eventAttrs2
  rw [eventAttrs1_eq]
  by_cases ht : e.eventType = "" <;>
    simp [ht, mapInsert, hasKey, catKey_beq_typeKey]

theorem eventAttrs2_cat (e : Event) :
    mapLookup (eventAttrs2 e) SFxEventCategoryKey = some (categoryAttr e) ∧
      keyCount (eventAttrs2 e) SFxEventCategoryKey = 1 := by
  rw [eventAttrs2_eq]
  by_cases ht : e.eventType = "" <;>
    simp [ht, mapLookup, keyCount, List.find?, catKey_beq_typeKey,
      typeKey_ne_catKey]

theorem eventAttrs3_cat (e : Event) :
    mapLookup (eventAttrs3 e) SFxEventCategoryKey = some (categoryAttr e) ∧
      keyCount (eventAttrs3 e) SFxEventCategoryKey = 1 := by
  unfold eventAttrs3
  exact dimsFold_preserve _ _ _ _ (eventAttrs2_cat e).1 (eventAttrs2_cat e).2

theorem eventAttrs4_cat (e : Event) :
    mapLookup (eventAttrs4 e) SFxEventCategoryKey = some (categoryAttr e) ∧
      keyCount (eventAttrs4 e) SFxEventCategoryKey = 1 := by
  unfold eventAttrs4
  by_cases hp : e.properties.length > 0
  · simp only [hp, if_pos]
    refine ⟨mapLookup_mapInsert_preserve _ _ _ _ _ (eventAttrs3_cat e).1, ?_⟩
    rw [keyCount_mapInsert_preserve]
    · exact (eventAttrs3_cat e).2
    · rw [hasKey_eq_isSome, (eventAttrs3_cat e).1]; rfl
  · simp only [hp, if_neg, not_false_iff]
    exact eventAttrs3_cat e

theorem eventAttrs2_type_nonempty (e : Event) (ht : e.eventType ≠ "") :
    mapLookup (eventAttrs2 e) SFxEventType = some (.strVal e.eventType) ∧
      keyCount (eventAttrs2 e) SFxEventType = 1 := by
  rw [eventAttrs2_eq]
  simp [ht, mapLookup, keyCount, List.find?, catKey_beq_typeKey,
    catKey_ne_typeKey]

theorem eventAttrs2_type_empty (e : Event) (ht : e.eventType = "") :
    hasKey (eventAttrs2 e) SFxEventType = false := by
  rw [eventAttrs2_eq]
  simp [ht, hasKey, catKey_beq_typeKey]

theorem eventAttrs4_type_nonempty (e : Event) (ht : e.eventType ≠ "") :
    mapLookup (eventAttrs4 e) SFxEventType = some (.strVal e.eventType) ∧
      keyCount (eventAttrs4 e) SFxEventType = 1 := by
  have h3 : mapLookup (eventAttrs3 e) SFxEventType = some (.strVal e.eventType) ∧
      keyCount (eventAttrs3 e) SFxEventType = 1 := by
    unfold eventAttrs3
    exact dimsFold_preserve _ _ _ _ (eventAttrs2_type_nonempty e ht).1
      (eventAttrs2_type_nonempty e ht).2
  unfold eventAttrs4
  by_cases hp : e.properties.length > 0
  · simp only [hp, if_pos]
    refine ⟨mapLookup_mapInsert_preserve _ _ _ _ _ h3.1, ?_⟩
    rw [keyCount_mapInsert_preserve]
    · exact h3.2
    · rw [hasKey_eq_isSome, h3.1]; rfl
  · simp only [hp, if_neg, not_false_iff]
    exact h3

theorem eventAttrs4_type_empty (e : Event) (ht : e.eventType = "")
    (hd : ∀ d ∈ e.dimensions, d.1 ≠ SFxEventType) :
    hasKey (eventAttrs4 e) SFxEventType = false := by
  have h3 : hasKey (eventAttrs3 e) SFxEventType = false := by
    unfold eventAttrs3
    rw [dimsFold_hasKey_of_not_mem _ _ _ hd]
    exact eventAttrs2_type_empty e ht
  unfold eventAttrs4
  by_cases hp : e.properties.length > 0
  · simp only [hp, if_pos]
    rw [hasKey_mapInsert, h3, propKey_beq_typeKey]
    rfl
  · simp only [hp, if_neg, not_false_iff]
    exact h3

theorem eventAttrs2_prop_absent (e : Event) :
    hasKey (eventAttrs2 e) SFxEventPropertiesKey = false := by
  rw [eventAttrs2_eq]
  by_cases ht : e.eventType = "" <;>
    simp [ht, hasKey, catKey_beq_propKey, typeKey_beq_propKey]

theorem eventAttrs3_prop_absent (e : Event)
    (hd : ∀ d ∈ e.dimensions, d.1 ≠ SFxEventPropertiesKey) :
    hasKey (eventAttrs3 e) SFxEventPropertiesKey = false := by
  unfold eventAttrs3
  rw [dimsFold_hasKey_of_not_mem _ _ _ hd]
  exact eventAttrs2_prop_absent e

theorem eventAttrs4_prop_present (e : Event)
    (hd : ∀ d ∈ e.dimensions, d.1 ≠ SFxEventPropertiesKey)
    (hp : e.properties.length > 0) :
    mapLookup (eventAttrs4 e) SFxEventPropertiesKey =
        some (.mapVal (propMapOf e.properties)) ∧
      keyCount (eventAttrs4 e) SFxEventPropertiesKey = 1 := by
  unfold eventAttrs4
  simp only [hp, if_pos]
  rw [convertProperties_eq]
  exact ⟨mapLookup_mapInsert_self _ _ _ (eventAttrs3_prop_absent e hd),
    keyCount_mapInsert_self _ _ _ (eventAttrs3_prop_absent e hd)⟩

theorem eventAttrs4_prop_absent (e : Event)
    (hd : ∀ d ∈ e.dimensions, d.1 ≠ SFxEventPropertiesKey)
    (hp : e.properties = []) :
    hasKey (eventAttrs4 e) SFxEventPropertiesKey = false := by
  unfold eventAttrs4
  simp only [hp]
  exact eventAttrs3_prop_absent e hd

/-! ### Lemmas about the emitted debug messages -/

theorem nilPropertyMsg_inj (a b : String) :
    nilPropertyMsg a = nilPropertyMsg b ↔ a = b := by
  simp [nilPropertyMsg]

theorem nilMsgs_level (props : List (String × Option GoValue)) :
    ∀ msg ∈ nilMsgsOf props, msg.level = "debug" := by
  intro msg hm
  rcases List.mem_map.1 hm with ⟨p, _, hp⟩
  rw [← hp]
  rfl

theorem nilMsg_not_mem (props : List (String × Option GoValue))
    (k : String) (h : ∀ p ∈ props, p.1 ≠ k) :
    nilPropertyMsg k ∉ nilMsgsOf props := by
  intro hm
  rcases List.mem_map.1 hm with ⟨p, hpmem, hpeq⟩
  exact h p (List.mem_of_mem_filter hpmem) ((nilPropertyMsg_inj p.1 k).1 hpeq)

theorem nilMsgsOf_cons_nil (p : String × Option GoValue)
    (rest : List (String × Option GoValue)) (hp : p.2 = none) :
    nilMsgsOf (p :: rest) = nilPropertyMsg p.1 :: nilMsgsOf rest := by
  simp [nilMsgsOf, List.filter_cons, hp]

theorem nilMsgsOf_cons_some (p : String × Option GoValue)
    (rest : List (String × Option GoValue)) (v : GoValue)
    (hp : p.2 = some v) :
    nilMsgsOf (p :: rest) = nilMsgsOf rest := by
  simp [nilMsgsOf, List.filter_cons, hp]

theorem nilMsgs_count_one (props : List (String × Option GoValue))
    (k : String) (hnd : (props.map Prod.fst).Nodup)
    (hmem : (k, none) ∈ props) :
    (nilMsgsOf props).count (nilPropertyMsg k) = 1 := by
  induction props with
  | nil => cases hmem
  | cons p rest ih =>
    simp only [List.map_cons, List.nodup_cons] at hnd
    rcases List.mem_cons.1 hmem with heq | hrest
    · subst heq
      have hrk : ∀ p' ∈ rest, p'.1 ≠ k := by
        intro p' hp' he
        exact hnd.1 (he ▸ List.mem_map.2 ⟨p', hp', rfl⟩)
      rw [nilMsgsOf_cons_nil _ _ rfl, List.count_cons_self,
        List.count_eq_zero_of_not_mem (nilMsg_not_mem rest k hrk)]
    · have hp1 : p.1 ≠ k := fun he =>
        hnd.1 (he ▸ List.mem_map.2 ⟨(k, none), hrest, rfl⟩)
      have hne : nilPropertyMsg k ≠ nilPropertyMsg p.1 := fun he =>
        hp1 ((nilPropertyMsg_inj p.1 k).1 he.symm)
      cases hp : p.2 with
      | none =>
        rw [nilMsgsOf_cons_nil _ _ hp, List.count_cons_of_ne hne]
        exact ih hnd.2 hrest
      | some v =>
        rw [nilMsgsOf_cons_some _ _ _ hp]
        exact ih hnd.2 hrest

theorem propsFold_hasKey_source (props : List (String × Option GoValue))
    (m : AttrMap) (k : String)
    (h : hasKey (props.foldl propMapStep m) k = true) :
    hasKey m k = true ∨ ∃ v, (k, some v) ∈ props := by
  induction props generalizing m with
  | nil => exact Or.inl h
  | cons p rest ih =>
    simp only [List.foldl_cons] at h
    rcases ih _ h with h' | ⟨v, hv⟩
    · cases hp : p.2 with
      | none =>
        rw [show propMapStep m p = m from by simp [propMapStep, hp]] at h'
        exact Or.inl h'
      | some v =>
        rw [show propMapStep m p = mapInsert m p.1 (convertPropertyValue v) from
            by simp [propMapStep, hp], hasKey_mapInsert] at h'
        rcases Bool.or_eq_true_iff.1 h' with hm | hk
        · exact Or.inl hm
        · refine Or.inr ⟨v, ?_⟩
          have : p = (k, some v) := by
            cases p with
            | mk a b =>
              simp only at hp
              simp only [beq_iff_eq] at hk
              rw [hp, hk]
          rw [← this]
          exact List.mem_cons_self _ _
    · exact Or.inr ⟨v, List.mem_cons_of_mem _ hv⟩

theorem eventAttrs4_preserve (e : Event) (k : String) (v : AttrValue)
    (h : mapLookup (eventAttrs3 e) k = some v)
    (hc : keyCount (eventAttrs3 e) k = 1) :
    mapLookup (eventAttrs4 e) k = some v ∧ keyCount (eventAttrs4 e) k = 1 := by
  unfold eventAttrs4
  by_cases hp : e.properties.length > 0
  · simp only [hp, if_pos]
    refine ⟨mapLookup_mapInsert_preserve _ _ _ _ _ h, ?_⟩
    rw [keyCount_mapInsert_preserve]
    · exact hc
    · rw [hasKey_eq_isSome, h]; rfl
  · simp only [hp, if_neg, not_false_iff]
    exact ⟨h, hc⟩

theorem hasKey_cat_true (e : Event) :
    hasKey (eventAttrs4 e) SFxEventCategoryKey = true := by
  rw [hasKey_eq_isSome, (eventAttrs4_cat e).1]
  rfl

theorem dim_absent_at_attrs2 (e : Event) (k : String)
    (hcat : k ≠ SFxEventCategoryKey)
    (htype : k = SFxEventType → e.eventType = "") :
    hasKey (eventAttrs2 e) k = false := by
  rw [eventAttrs2_eq]
  have hck : ¬SFxEventCategoryKey = k := fun h => hcat h.symm
  by_cases ht : e.eventType = ""
  · simp [ht, hasKey, hck]
  · have htk : ¬SFxEventType = k := fun h => ht (htype h.symm)
    simp [ht, hasKey, hck, htk]

/-! ### The claims -/

/-- C1: for every source event, the produced log record's attribute
collection contains exactly one attribute under the category marker key
`com.splunk.signalfx.event_category`: a null value when the event's
`Category` equals 0, and an integer equal to the category otherwise;
this attribute is present in every output. -/
theorem category_marker_attribute_unique (e : Event) :
    mapLookup (sfxEventToPDataLogs e).record.attributes SFxEventCategoryKey =
        some (if e.category = 0 then AttrValue.nullVal
          else AttrValue.intVal e.category) ∧
      keyCount (sfxEventToPDataLogs e).record.attributes
        SFxEventCategoryKey = 1 := by
  have h := eventAttrs4_cat e
  unfold categoryAttr at h
  exact h

/-- C3: for every property with a non-nil value, the type switch
classifies the value's underlying type: a string becomes a string
attribute with the same content; a boolean a boolean attribute; a
signed integer of any width a 64-bit integer attribute with the same
numeric value; a float of any width a double attribute with the same
numeric value; any other type (here: the unsigned widths and `vOther`)
a string attribute holding the value's default `%v` rendering. -/
theorem property_value_classification :
    (∀ s, convertPropertyValue (.vString s) = .strVal s) ∧
    (∀ b, convertPropertyValue (.vBool b) = .boolVal b) ∧
    (∀ i, convertPropertyValue (.vInt i) = .intVal i) ∧
    (∀ i, convertPropertyValue (.vInt8 i) = .intVal i) ∧
    (∀ i, convertPropertyValue (.vInt16 i) = .intVal i) ∧
    (∀ i, convertPropertyValue (.vInt32 i) = .intVal i) ∧
    (∀ i, convertPropertyValue (.vInt64 i) = .intVal i) ∧
    (∀ q, convertPropertyValue (.vFloat32 q) = .doubleVal q) ∧
    (∀ q, convertPropertyValue (.vFloat64 q) = .doubleVal q) ∧
    (∀ r, convertPropertyValue (.vOther r) = .strVal (goRender (.vOther r))) ∧
    (∀ n, convertPropertyValue (.vUInt n) = .strVal (goRender (.vUInt n))) ∧
    (∀ n, convertPropertyValue (.vUInt8 n) = .strVal (goRender (.vUInt8 n))) ∧
    (∀ n, convertPropertyValue (.vUInt16 n) = .strVal (goRender (.vUInt16 n))) ∧
    (∀ n, convertPropertyValue (.vUInt32 n) = .strVal (goRender (.vUInt32 n))) ∧
    (∀ n, convertPropertyValue (.vUInt64 n) = .strVal (goRender (.vUInt64 n))) ∧
    (∀ n, convertPropertyValue (.vUIntPtr n) =
      .strVal (goRender (.vUIntPtr n))) :=
  ⟨fun _ => rfl, fun _ => rfl, fun _ => rfl, fun _ => rfl, fun _ => rfl,
    fun _ => rfl, fun _ => rfl, fun _ => rfl, fun _ => rfl, fun _ => rfl,
    fun _ => rfl, fun _ => rfl, fun _ => rfl, fun _ => rfl, fun _ => rfl,
    fun _ => rfl⟩

/-- C6: the timestamp set on the produced log record is 0 when the
source timestamp is the zero value and otherwise the source timestamp's
nanoseconds since the Unix epoch; a zero-value timestamp and an actual
epoch-zero instant both produce 0. -/
theorem timestamp_resolution (e : Event) (t : Int) :
    (sfxEventToPDataLogs e).record.timestamp =
        (if e.timestamp.isZero then 0 else e.timestamp.unixNano) ∧
      (sfxEventToPDataLogs { e with timestamp := ⟨true, t⟩ }).record.timestamp
        = 0 ∧
      (sfxEventToPDataLogs { e with timestamp := ⟨false, 0⟩ }).record.timestamp
        = 0 :=
  ⟨rfl, rfl, rfl⟩

/-- C9: the conversion is total — it is a function defined on all events
of the data-model shape — and for every event it returns a populated log
record: the attribute collection is non-empty and always carries the
category marker, with no error return or failing case in the type. -/
theorem conversion_total_populated (e : Event) :
    hasKey (sfxEventToPDataLogs e).record.attributes
        SFxEventCategoryKey = true ∧
      (sfxEventToPDataLogs e).record.attributes ≠ [] := by
  refine ⟨hasKey_cat_true e, ?_⟩
  intro hnil
  have he : eventAttrs4 e = [] := hnil
  have h := hasKey_cat_true e
  rw [he] at h
  exact Bool.noConfusion h

/-- C10: a property whose non-nil value is an unsigned integer of any
width (uint, uint8, uint16, uint32, uint64, uintptr) is not converted
to an integer attribute: it falls through to the default case and
becomes a string attribute holding its decimal rendering. -/
theorem unsigned_properties_rendered_as_strings :
    (∀ n, convertPropertyValue (.vUInt n) = .strVal (toString n)) ∧
    (∀ n, convertPropertyValue (.vUInt8 n) = .strVal (toString n)) ∧
    (∀ n, convertPropertyValue (.vUInt16 n) = .strVal (toString n)) ∧
    (∀ n, convertPropertyValue (.vUInt32 n) = .strVal (toString n)) ∧
    (∀ n, convertPropertyValue (.vUInt64 n) = .strVal (toString n)) ∧
    (∀ n, convertPropertyValue (.vUIntPtr n) = .strVal (toString n)) ∧
    (∀ n i, convertPropertyValue (.vUInt n) ≠ .intVal i) ∧
    (∀ n i, convertPropertyValue (.vUInt8 n) ≠ .intVal i) ∧
    (∀ n i, convertPropertyValue (.vUInt16 n) ≠ .intVal i) ∧
    (∀ n i, convertPropertyValue (.vUInt32 n) ≠ .intVal i) ∧
    (∀ n i, convertPropertyValue (.vUInt64 n) ≠ .intVal i) ∧
    (∀ n i, convertPropertyValue (.vUIntPtr n) ≠ .intVal i) :=
  ⟨fun _ => rfl, fun _ => rfl, fun _ => rfl, fun _ => rfl, fun _ => rfl,
    fun _ => rfl,
    fun _ _ h => AttrValue.noConfusion h, fun _ _ h => AttrValue.noConfusion h,
    fun _ _ h => AttrValue.noConfusion h, fun _ _ h => AttrValue.noConfusion h,
    fun _ _ h => AttrValue.noConfusion h, fun _ _ h => AttrValue.noConfusion h⟩

/-- Witness for C6 at `plainEvent` and the instant 42. -/
theorem timestamp_resolution_witness :
    (sfxEventToPDataLogs plainEvent).record.timestamp =
        (if plainEvent.timestamp.isZero then 0
          else plainEvent.timestamp.unixNano) ∧
      (sfxEventToPDataLogs
        { plainEvent with timestamp := ⟨true, 42⟩ }).record.timestamp = 0 ∧
      (sfxEventToPDataLogs
        { plainEvent with timestamp := ⟨false, 0⟩ }).record.timestamp = 0 :=
  timestamp_resolution plainEvent 42

/-- Witness for C9 at `plainEvent`. -/
theorem conversion_total_populated_witness :
    hasKey (sfxEventToPDataLogs plainEvent).record.attributes
        SFxEventCategoryKey = true ∧
      (sfxEventToPDataLogs plainEvent).record.attributes ≠ [] :=
  conversion_total_populated plainEvent

/-- Witness for C10 at the value 5 in each unsigned width. -/
theorem unsigned_properties_rendered_as_strings_witness :
    convertPropertyValue (.vUInt 5) = .strVal "5" ∧
      convertPropertyValue (.vUIntPtr 5) = .strVal "5" ∧
      convertPropertyValue (.vUInt 5) ≠ .intVal 5 ∧
      convertPropertyValue (.vUInt64 5) ≠ .intVal 5 :=
  ⟨unsigned_properties_rendered_as_strings.1 5,
    unsigned_properties_rendered_as_strings.2.2.2.2.2.1 5,
    unsigned_properties_rendered_as_strings.2.2.2.2.2.2.1 5 5,
    unsigned_properties_rendered_as_strings.2.2.2.2.2.2.2.2.2.2.1 5 5⟩

/-- C4: a property stored with a nil value is dropped entirely — the
nested properties map has no entry for its key — and exactly one
debug-level message carrying that key is emitted; all emitted messages
are debug-level, and the conversion still returns a log record with the
category marker present. -/
theorem nil_property_dropped_and_logged (e : Event) (k : String)
    (hnd : (e.properties.map Prod.fst).Nodup)
    (hmem : (k, none) ∈ e.properties) :
    hasKey (convertProperties e.properties).1 k = false ∧
      (sfxEventToPDataLogs e).logMessages.count (nilPropertyMsg k) = 1 ∧
      (∀ msg ∈ (sfxEventToPDataLogs e).logMessages, msg.level = "debug") ∧
      hasKey (sfxEventToPDataLogs e).record.attributes
        SFxEventCategoryKey = true := by
  refine ⟨?_, ?_, ?_, hasKey_cat_true e⟩
  · rw [convertProperties_eq]
    exact propsFold_skip_nil e.properties k hnd hmem
  · show ((convertProperties e.properties).2).count (nilPropertyMsg k) = 1
    rw [convertProperties_eq]
    exact nilMsgs_count_one e.properties k hnd hmem
  · intro msg hm
    have hm' : msg ∈ (convertProperties e.properties).2 := hm
    rw [convertProperties_eq] at hm'
    exact nilMsgs_level e.properties msg hm'

/-- Witness for C4 at `plainEvent` and its nil-valued key "p2". -/
theorem nil_property_dropped_and_logged_witness :
    hasKey (convertProperties plainEvent.properties).1 "p2" = false ∧
      (sfxEventToPDataLogs plainEvent).logMessages.count
        (nilPropertyMsg "p2") = 1 ∧
      (∀ msg ∈ (sfxEventToPDataLogs plainEvent).logMessages,
        msg.level = "debug") ∧
      hasKey (sfxEventToPDataLogs plainEvent).record.attributes
        SFxEventCategoryKey = true :=
  nil_property_dropped_and_logged plainEvent "p2" (by decide) (by decide)

/-- C5 counterexample: at `typeCollisionEvent` (empty `EventType`, one
dimension whose key is the type marker key) an attribute under the type
marker key is present even though `EventType` is empty, so "present iff
`EventType` non-empty" fails. -/
theorem type_attribute_iff_cex :
    ¬ ((mapLookup (sfxEventToPDataLogs typeCollisionEvent).record.attributes
          SFxEventType ≠ none) ↔ typeCollisionEvent.eventType ≠ "") := by
  have h : mapLookup (sfxEventToPDataLogs typeCollisionEvent).record.attributes
      SFxEventType = some (.strVal "foo") := rfl
  rw [h]
  intro hiff
  exact hiff.1 (fun hc => Option.noConfusion hc) rfl

/-- C5 amended: provided no dimension key equals the type marker key,
the output contains an attribute under `com.splunk.signalfx.event_type`
iff `EventType` is non-empty, and when present it is the one string
attribute whose value equals `EventType` exactly. -/
theorem type_attribute_iff_no_collision (e : Event)
    (hd : ∀ d ∈ e.dimensions, d.1 ≠ SFxEventType) :
    (e.eventType ≠ "" →
      mapLookup (sfxEventToPDataLogs e).record.attributes SFxEventType =
          some (.strVal e.eventType) ∧
        keyCount (sfxEventToPDataLogs e).record.attributes SFxEventType = 1) ∧
    (e.eventType = "" →
      mapLookup (sfxEventToPDataLogs e).record.attributes SFxEventType
        = none) := by
  constructor
  · intro ht
    exact eventAttrs4_type_nonempty e ht
  · intro ht
    have h := eventAttrs4_type_empty e ht hd
    rw [hasKey_false_iff_lookup_none] at h
    exact h

/-- Witness for C5 (amended) at `plainEvent`. -/
theorem type_attribute_iff_no_collision_witness :
    (plainEvent.eventType ≠ "" →
      mapLookup (sfxEventToPDataLogs plainEvent).record.attributes
          SFxEventType = some (.strVal plainEvent.eventType) ∧
        keyCount (sfxEventToPDataLogs plainEvent).record.attributes
          SFxEventType = 1) ∧
    (plainEvent.eventType = "" →
      mapLookup (sfxEventToPDataLogs plainEvent).record.attributes
        SFxEventType = none) :=
  type_attribute_iff_no_collision plainEvent (by decide)

/-- C2 counterexample: at `propsCollisionEvent` (non-empty `Properties`,
one dimension whose key is the properties marker key) the attribute
stored under the properties marker key is the dimension's string, not a
nested map, so "nested-map attribute present iff `Properties` non-empty"
fails. -/
theorem properties_attribute_iff_cex :
    ¬ ((∃ pm, mapLookup
          (sfxEventToPDataLogs propsCollisionEvent).record.attributes
          SFxEventPropertiesKey = some (.mapVal pm)) ↔
        propsCollisionEvent.properties ≠ []) := by
  have h : mapLookup (sfxEventToPDataLogs propsCollisionEvent).record.attributes
      SFxEventPropertiesKey = some (.strVal "x") := rfl
  rw [h]
  intro hiff
  rcases hiff.2 (fun hc => List.noConfusion
    (show propsCollisionEvent.properties = [] from hc)) with ⟨pm, hpm⟩
  exact AttrValue.noConfusion (Option.some.inj hpm)

/-- C2 amended: provided no dimension key equals the properties marker
key, the output carries a nested-map attribute under
`com.splunk.signalfx.event_properties` iff `Properties` is non-empty;
when present, the nested map holds exactly one entry (the classified
value) per non-nil property, no entry for any nil-valued property, and
nothing else. -/
theorem properties_attribute_iff_no_collision (e : Event)
    (hd : ∀ d ∈ e.dimensions, d.1 ≠ SFxEventPropertiesKey)
    (hnd : (e.properties.map Prod.fst).Nodup) :
    (e.properties ≠ [] →
      mapLookup (sfxEventToPDataLogs e).record.attributes
          SFxEventPropertiesKey = some (.mapVal (propMapOf e.properties)) ∧
        keyCount (sfxEventToPDataLogs e).record.attributes
          SFxEventPropertiesKey = 1 ∧
        (∀ k v, (k, some v) ∈ e.properties →
          mapLookup (propMapOf e.properties) k =
              some (convertPropertyValue v) ∧
            keyCount (propMapOf e.properties) k = 1) ∧
        (∀ k, (k, none) ∈ e.properties →
          hasKey (propMapOf e.properties) k = false) ∧
        (∀ k, hasKey (propMapOf e.properties) k = true →
          ∃ v, (k, some v) ∈ e.properties)) ∧
    (e.properties = [] →
      mapLookup (sfxEventToPDataLogs e).record.attributes
        SFxEventPropertiesKey = none) := by
  constructor
  · intro hne
    have hlen : e.properties.length > 0 := List.length_pos.2 hne
    refine ⟨(eventAttrs4_prop_present e hd hlen).1,
      (eventAttrs4_prop_present e hd hlen).2, ?_, ?_, ?_⟩
    · intro k v hkv
      exact propsFold_insert e.properties [] k v hnd hkv rfl
    · intro k hk
      exact propsFold_skip_nil e.properties k hnd hk
    · intro k hk
      rcases propsFold_hasKey_source e.properties [] k hk with h' | hv
      · exact Bool.noConfusion h'
      · exact hv
  · intro hnil
    have h := eventAttrs4_prop_absent e hd hnil
    rw [hasKey_false_iff_lookup_none] at h
    exact h

/-- Witness for C2 (amended) at `plainEvent`. -/
theorem properties_attribute_iff_no_collision_witness :
    (plainEvent.properties ≠ [] →
      mapLookup (sfxEventToPDataLogs plainEvent).record.attributes
          SFxEventPropertiesKey =
            some (.mapVal (propMapOf plainEvent.properties)) ∧
        keyCount (sfxEventToPDataLogs plainEvent).record.attributes
          SFxEventPropertiesKey = 1 ∧
        (∀ k v, (k, some v) ∈ plainEvent.properties →
          mapLookup (propMapOf plainEvent.properties) k =
              some (convertPropertyValue v) ∧
            keyCount (propMapOf plainEvent.properties) k = 1) ∧
        (∀ k, (k, none) ∈ plainEvent.properties →
          hasKey (propMapOf plainEvent.properties) k = false) ∧
        (∀ k, hasKey (propMapOf plainEvent.properties) k = true →
          ∃ v, (k, some v) ∈ plainEvent.properties)) ∧
    (plainEvent.properties = [] →
      mapLookup (sfxEventToPDataLogs plainEvent).record.attributes
        SFxEventPropertiesKey = none) :=
  properties_attribute_iff_no_collision plainEvent (by decide) (by decide)

/-- C7 counterexample: at `catCollisionEvent` the dimension pair
(`SFxEventCategoryKey`, "collide") does not appear as a string attribute
with its value — the category marker written earlier occupies the key —
so "every dimension pair appears as a string attribute" fails. -/
theorem dimensions_copied_cex :
    (SFxEventCategoryKey, "collide") ∈ catCollisionEvent.dimensions ∧
      mapLookup (sfxEventToPDataLogs catCollisionEvent).record.attributes
        SFxEventCategoryKey ≠ some (.strVal "collide") := by
  refine ⟨by decide, ?_⟩
  have h : mapLookup (sfxEventToPDataLogs catCollisionEvent).record.attributes
      SFxEventCategoryKey = some .nullVal := rfl
  rw [h]
  exact fun hc => AttrValue.noConfusion (Option.some.inj hc)

/-- C7 amended: every dimension key/value pair whose key is not the
category marker key and not the type marker key while `EventType` is
non-empty appears in the output as the one string attribute with that
exact key and value (unique keys assumed, as for a Go map). -/
theorem dimensions_copied_no_collision (e : Event) (k v : String)
    (hnd : (e.dimensions.map Prod.fst).Nodup)
    (hmem : (k, v) ∈ e.dimensions)
    (hcat : k ≠ SFxEventCategoryKey)
    (htype : k = SFxEventType → e.eventType = "") :
    mapLookup (sfxEventToPDataLogs e).record.attributes k =
        some (.strVal v) ∧
      keyCount (sfxEventToPDataLogs e).record.attributes k = 1 := by
  have h2 := dim_absent_at_attrs2 e k hcat htype
  have h3 := dimsFold_insert e.dimensions (eventAttrs2 e) k v hnd hmem h2
  exact eventAttrs4_preserve e k (.strVal v) h3.1 h3.2

/-- Witness for C7 (amended) at `plainEvent` and its dimension
("host", "a"). -/
theorem dimensions_copied_no_collision_witness :
    mapLookup (sfxEventToPDataLogs plainEvent).record.attributes "host" =
        some (.strVal "a") ∧
      keyCount (sfxEventToPDataLogs plainEvent).record.attributes "host" = 1 :=
  dimensions_copied_no_collision plainEvent "host" "a" (by decide) (by decide)
    (by decide) (by decide)

/-- C8 counterexample: at `lastWriteEvent` the dimension
(`SFxEventCategoryKey`, "late") is written later in the population
sequence than the category marker, yet the final value is the marker's
null, not the dimension's string — the later write does not overwrite,
so "last-write wins" fails. -/
theorem marker_collision_last_write_cex :
    (SFxEventCategoryKey, "late") ∈ lastWriteEvent.dimensions ∧
      mapLookup (sfxEventToPDataLogs lastWriteEvent).record.attributes
        SFxEventCategoryKey ≠ some (.strVal "late") := by
  refine ⟨by decide, ?_⟩
  have h : mapLookup (sfxEventToPDataLogs lastWriteEvent).record.attributes
      SFxEventCategoryKey = some .nullVal := rfl
  rw [h]
  exact fun hc => AttrValue.noConfusion (Option.some.inj hc)

/-- C8 amended: attribute insertion is insert-if-absent, so on a
collision between a dimension key and the category or type marker key
the first-written value wins: the marker value written before the
dimension loop is retained and the colliding dimension value is
dropped. -/
theorem marker_collision_first_write_wins (e : Event) (k v : String)
    (hmem : (k, v) ∈ e.dimensions) :
    (k = SFxEventCategoryKey →
      mapLookup (sfxEventToPDataLogs e).record.attributes k =
        some (if e.category = 0 then AttrValue.nullVal
          else AttrValue.intVal e.category)) ∧
    (k = SFxEventType → e.eventType ≠ "" →
      mapLookup (sfxEventToPDataLogs e).record.attributes k =
        some (.strVal e.eventType)) := by
  constructor
  · intro hk
    subst hk
    have h := (eventAttrs4_cat e).1
    unfold categoryAttr at h
    exact h
  · intro hk ht
    subst hk
    exact (eventAttrs4_type_nonempty e ht).1

/-- Witness for C8 (amended) at `lastWriteEvent` and its colliding
dimension key. -/
theorem marker_collision_first_write_wins_witness :
    (SFxEventCategoryKey = SFxEventCategoryKey →
      mapLookup (sfxEventToPDataLogs lastWriteEvent).record.attributes
          SFxEventCategoryKey =
        some (if lastWriteEvent.category = 0 then AttrValue.nullVal
          else AttrValue.intVal lastWriteEvent.category)) ∧
    (SFxEventCategoryKey = SFxEventType → lastWriteEvent.eventType ≠ "" →
      mapLookup (sfxEventToPDataLogs lastWriteEvent).record.attributes
          SFxEventCategoryKey =
        some (.strVal lastWriteEvent.eventType)) :=
  marker_collision_first_write_wins lastWriteEvent SFxEventCategoryKey "late"
    (by decide)

end SfxEvent
